import Mathlib

/-!
Shallow embedding of the gitstreams core (diff engine, paginated fetch layer,
cache-aware page fetcher, snapshot builder) and proofs of the specification
claims about it.

Conventions of the embedding:
* Go `time.Time` values are UTC instants, embedded as whole seconds plus
  nanoseconds (`GoTime`).  `t.Before u` is strict instant comparison.
* Go maps are embedded as association lists; map indexing is `assocGet`
  (first matching key) and map assignment is `assocPut` (overwrite in
  place).  Go's unspecified map iteration order becomes list order; every
  theorem proved below is insensitive to that order.
* Fallible Go functions returning `error` are embedded with `Except`.
-/

namespace GitStreams

/-- Go `time.Time` instant (UTC wall clock): whole seconds since the epoch
plus a nanosecond part. -/
structure GoTime where
  sec : Int
  nsec : Nat
deriving DecidableEq

/-- Go `t.Before(u)`: strict comparison of instants. -/
def GoTime.before (t u : GoTime) : Bool :=
  t.sec < u.sec || (t.sec == u.sec && t.nsec < u.nsec)

/-- Go map indexing `m[k]` for a map embedded as an association list:
the value at the first matching key, if any. -/
def assocGet {α : Type} (l : List (String × α)) (k : String) : Option α :=
  match l with
  | [] => none
  | (k', v) :: rest => if k' = k then some v else assocGet rest k

/-- Go map assignment `m[k] = v`: overwrite the binding for `k` in place,
appending a fresh binding when `k` is absent. -/
def assocPut {α : Type} (l : List (String × α)) (k : String) (v : α) :
    List (String × α) :=
  match l with
  | [] => [(k, v)]
  | (k', v') :: rest =>
      if k' = k then (k, v) :: rest else (k', v') :: assocPut rest k v

namespace diff

/-- Repo from diff.go: a GitHub repository as the diff engine sees it. -/
structure Repo where
  createdAt : GoTime
  owner : String
  name : String
  description : String
  language : String
  stars : Int
deriving DecidableEq

/-- FullName from diff.go: `r.Owner + "/" + r.Name`. -/
def Repo.FullName (r : Repo) : String :=
  r.owner ++ "/" ++ r.name

/-- Event from diff.go: a GitHub activity event. -/
structure Event where
  createdAt : GoTime
  type : String
  actor : String
  repo : String
deriving DecidableEq

/-- UserActivity from diff.go: one user's activity at a point in time. -/
structure UserActivity where
  username : String
  starredRepos : List Repo
  ownedRepos : List Repo
  events : List Event
deriving DecidableEq

/-- Snapshot from diff.go: all followed users' activity at a point in time.
The Go field `Users map[string]UserActivity` is embedded as an association
list keyed by username. -/
structure Snapshot where
  capturedAt : GoTime
  users : List (String × UserActivity)
deriving DecidableEq

/-- RepoChange from diff.go. -/
structure RepoChange where
  username : String
  repo : Repo
deriving DecidableEq

/-- EventChange from diff.go. -/
structure EventChange where
  event : Event
  username : String
deriving DecidableEq

/-- Result from diff.go: all detected changes between two snapshots. -/
structure Result where
  oldCapturedAt : GoTime
  newCapturedAt : GoTime
  newStars : List RepoChange
  newRepos : List RepoChange
  newEvents : List EventChange
  newUsers : List String
  goneUsers : List String

/-- IsEmpty from diff.go: true when no changes were detected, i.e. all five
collections have length zero. -/
def Result.IsEmpty (r : Result) : Bool :=
  r.newStars.isEmpty && r.newRepos.isEmpty && r.newEvents.isEmpty &&
    r.newUsers.isEmpty && r.goneUsers.isEmpty

/-- repoSet from diff.go: the set of repo full names, used for membership
tests.  The Go `map[string]bool` used as a set is embedded as the list of
keys; `set[k]` is list membership. -/
def repoSet (repos : List Repo) : List String :=
  repos.map Repo.FullName

/-- eventKey from diff.go:
`e.Type + "|" + e.Actor + "|" + e.Repo + "|" + e.CreatedAt.Format(time.RFC3339)`.
Go's `Format(time.RFC3339)` renders the instant truncated to whole seconds;
on the UTC instants this program handles it is an injective, bar-free
function of the seconds value alone (the nanosecond part is dropped), and it
is the final component of the key.  Key equality is therefore exactly
equality of the textual `type|actor|repo` prefix paired with the whole-second
value, which is how the embedding represents the key. -/
def eventKey (e : Event) : String × Int :=
  (e.type ++ "|" ++ e.actor ++ "|" ++ e.repo, e.createdAt.sec)

/-- eventSet from diff.go: the set of event keys, embedded as the list of
keys with membership as the set test. -/
def eventSet (events : List Event) : List (String × Int) :=
  events.map eventKey

/-- Changes contributed to the Result by one entry of `new.Users` during the
per-user loop of Compare: the all-new branch when the username is absent
from `old.Users`, the identity-key filtered branch otherwise. -/
def compareUser (oldUsers : List (String × UserActivity)) (username : String)
    (newActivity : UserActivity) :
    List RepoChange × List RepoChange × List EventChange :=
  match assocGet oldUsers username with
  | none =>
      (newActivity.starredRepos.map (fun repo => ⟨username, repo⟩),
       newActivity.ownedRepos.map (fun repo => ⟨username, repo⟩),
       newActivity.events.map (fun event => ⟨event, username⟩))
  | some oldActivity =>
      ((newActivity.starredRepos.filter
          (fun repo => decide (repo.FullName ∉ repoSet oldActivity.starredRepos))).map
          (fun repo => ⟨username, repo⟩),
       (newActivity.ownedRepos.filter
          (fun repo => decide (repo.FullName ∉ repoSet oldActivity.ownedRepos))).map
          (fun repo => ⟨username, repo⟩),
       (newActivity.events.filter
          (fun event => decide (eventKey event ∉ eventSet oldActivity.events))).map
          (fun event => ⟨event, username⟩))

/-- Compare from diff.go: compares two snapshots and returns the detected
changes.  The loops over the Go maps become loops over the association
lists; all claims proved below are insensitive to iteration order. -/
def Compare (old new : Snapshot) : Result :=
  { oldCapturedAt := old.capturedAt
    newCapturedAt := new.capturedAt
    newUsers :=
      (new.users.filter (fun u => (assocGet old.users u.1).isNone)).map Prod.fst
    goneUsers :=
      (old.users.filter (fun u => (assocGet new.users u.1).isNone)).map Prod.fst
    newStars := new.users.flatMap (fun u => (compareUser old.users u.1 u.2).1)
    newRepos := new.users.flatMap (fun u => (compareUser old.users u.1 u.2).2.1)
    newEvents := new.users.flatMap (fun u => (compareUser old.users u.1 u.2).2.2) }

end diff

namespace github

/-- User from client.go (the fields the core reads). -/
structure User where
  login : String
  avatarURL : String
  htmlURL : String
  name : String
  bio : String
  id : Int
deriving DecidableEq

/-- Repository from client.go. -/
structure Repository where
  createdAt : GoTime
  updatedAt : GoTime
  name : String
  fullName : String
  description : String
  htmlURL : String
  language : String
  owner : User
  id : Int
  starCount : Int
  forkCount : Int
  isPrivate : Bool
deriving DecidableEq

/-- EventRepo from client.go: minimal repo representation in events. -/
structure EventRepo where
  name : String
  url : String
  id : Int
deriving DecidableEq

/-- Event from client.go.  The raw JSON payload is kept as a string. -/
structure Event where
  payload : String
  createdAt : GoTime
  id : String
  type : String
  actor : User
  repo : EventRepo
deriving DecidableEq

/-- cacheEntry from client.go: a cached API response with its ETag. -/
structure cacheEntry where
  timestamp : GoTime
  etag : String
  data : String
deriving DecidableEq

/-- Error taxonomy of the fetch layer as surfaced by `Client.get`:
transport failures, non-2xx API responses, and decode failures. -/
inductive GetError where
  | transportError (msg : String)
  | apiError (status : Nat) (body : String)
  | decodeError (msg : String)
deriving DecidableEq

/-- HTTP response as the fetch layer observes it: status code, body, and
the ETag response header (empty string when the header is absent, exactly
as Go's `resp.Header.Get` reports it). -/
structure Response where
  statusCode : Nat
  body : String
  etag : String
deriving DecidableEq

/-- ETag cache of one client instance, keyed by the exact request path. -/
def Cache := List (String × cacheEntry)

/-- get from client.go, success and error paths, for one request whose
network outcome is `resp`.  The decoder stands for `json.Unmarshal` into
the caller's target type; `now` stands for `time.Now()` at cache-store
time.  Returns the decoded result (or error) and the cache after the call.
Mirrored from the source: on 304 with a prior cache entry for the exact
path, the cached body is decoded instead of the network body and the cache
is unchanged; on any other status outside 2xx the call fails with an API
error and the cache is untouched; on 2xx the body is decoded and, if the
response carried a nonempty ETag, the entry for the path is overwritten. -/
def get {α : Type} (cache : Cache) (path : String) (resp : Response)
    (decode : String → Except String α) (now : GoTime) :
    Except GetError α × Cache :=
  if resp.statusCode = 304 && (assocGet cache path).isSome then
    match assocGet cache path with
    | some entry =>
        (match decode entry.data with
         | .ok v => .ok v
         | .error msg => .error (.decodeError msg), cache)
    | none => (.error (.transportError "unreachable"), cache)
  else if resp.statusCode < 200 || 300 ≤ resp.statusCode then
    (.error (.apiError resp.statusCode resp.body), cache)
  else if resp.etag ≠ "" then
    (match decode resp.body with
     | .ok v => .ok v
     | .error msg => .error (.decodeError msg),
     assocPut cache path ⟨now, resp.etag, resp.body⟩)
  else
    (match decode resp.body with
     | .ok v => .ok v
     | .error msg => .error (.decodeError msg), cache)

/-- Page `page` of a resource whose items, in the order the remote serves
them, are `items`, at `perPage` items per page (pages are 1-based).  This
is the remote list endpoint's contract that getPaginated drives. -/
def pageSlice {α : Type} (items : List α) (perPage page : Nat) : List α :=
  (items.drop ((page - 1) * perPage)).take perPage

/-- Loop of getPaginated from client.go, fetching from a resource of
`items` served by `pageSlice` with perPage = 100: request the current
page (counting requests), stop on an empty page, append the page to the
accumulator, stop when the page was short, otherwise advance to the next
page.  Returns the accumulated slice and the number of page requests. -/
def getPaginatedLoop {α : Type} (items acc : List α) (page reqs : Nat) :
    List α × Nat :=
  if (pageSlice items 100 page).length = 0 then (acc, reqs + 1)
  else if (pageSlice items 100 page).length < 100 then
    (acc ++ pageSlice items 100 page, reqs + 1)
  else getPaginatedLoop items (acc ++ pageSlice items 100 page) (page + 1) (reqs + 1)
termination_by items.length + 100 - page * 100
decreasing_by
  simp only [pageSlice, List.length_take, List.length_drop] at *
  omega

/-- getPaginated from client.go on the success path: collect every page of
the resource `items`, appending to the caller's existing slice `init`
(Go appends to the slice behind the result pointer and stores it back only
when the whole collection succeeds). -/
def getPaginated {α : Type} (items init : List α) : List α × Nat :=
  getPaginatedLoop items init 1 0

/-- Loop of getPaginated when the fetch of page `k` fails with error `e`
(transport, API, or decode failure inside `Client.get`): identical to the
success loop except that requesting page `k` returns the error, which
getPaginated propagates immediately. -/
def getPaginatedErrLoop {α ε : Type} (items : List α) (k : Nat) (e : ε)
    (acc : List α) (page reqs : Nat) : Except ε (List α) × Nat :=
  if page = k then (.error e, reqs + 1)
  else if (pageSlice items 100 page).length = 0 then (.ok acc, reqs + 1)
  else if (pageSlice items 100 page).length < 100 then
    (.ok (acc ++ pageSlice items 100 page), reqs + 1)
  else
    getPaginatedErrLoop items k e (acc ++ pageSlice items 100 page)
      (page + 1) (reqs + 1)
termination_by items.length + 100 - page * 100
decreasing_by
  simp only [pageSlice, List.length_take, List.length_drop] at *
  omega

/-- getPaginated from client.go when page `k` of the resource fails. -/
def getPaginatedErr {α ε : Type} (items : List α) (k : Nat) (e : ε)
    (init : List α) : Except ε (List α) × Nat :=
  getPaginatedErrLoop items k e init 1 0

/-- Slice observed by the caller after getPaginated returns: the Go code
writes the accumulated slice through the result pointer only on the
success path, so on an error the caller's slice is exactly as before. -/
def callerSliceAfter {α ε : Type} (init : List α) (res : Except ε (List α)) :
    List α :=
  match res with
  | .ok l => l
  | .error _ => init

end github

namespace main

/-- GitHubClient as fetchActivity consumes it: the outcome of each fetch
the snapshot builder performs.  Each Go method call is embedded as the
`Except` value it returns for the given username. -/
structure GitHubClient where
  getFollowedUsers : Except String (List github.User)
  getStarredReposByUsername : String → Except String (List github.Repository)
  getOwnedReposByUsername : String → Except String (List github.Repository)
  getRecentEvents : String → Except String (List github.Event)

/-- convertRepo from main.go. -/
def convertRepo (r : github.Repository) : diff.Repo :=
  { createdAt := r.createdAt
    owner := r.owner.login
    name := r.name
    description := r.description
    language := r.language
    stars := r.starCount }

/-- convertEvent from main.go. -/
def convertEvent (e : github.Event) : diff.Event :=
  { type := e.type
    actor := e.actor.login
    repo := e.repo.name
    createdAt := e.createdAt }

/-- Body of the per-user loop of fetchActivity from main.go: attempt the
three category fetches independently; a failed category is logged and left
empty (nil slice), a successful one is filtered to the items whose
creation timestamp is not before the cutoff and converted. -/
def buildUserActivity (client : GitHubClient) (cutoff : GoTime)
    (login : String) : diff.UserActivity :=
  { username := login
    starredRepos :=
      match client.getStarredReposByUsername login with
      | .error _ => []
      | .ok starred =>
          (starred.filter (fun repo => !repo.createdAt.before cutoff)).map
            convertRepo
    ownedRepos :=
      match client.getOwnedReposByUsername login with
      | .error _ => []
      | .ok owned =>
          (owned.filter (fun repo => !repo.createdAt.before cutoff)).map
            convertRepo
    events :=
      match client.getRecentEvents login with
      | .error _ => []
      | .ok events =>
          (events.filter (fun event => !event.createdAt.before cutoff)).map
            convertEvent }

/-- fetchActivity from main.go: fetch the followed users (propagating a
failure there), then build one UserActivity per followed user and insert
it into the snapshot's user map keyed by username.  Progress and verbose
logging are pure observability and are not modelled. -/
def fetchActivity (client : GitHubClient) (now cutoff : GoTime) :
    Except String diff.Snapshot :=
  match client.getFollowedUsers with
  | .error e => .error e
  | .ok users =>
      .ok
        { capturedAt := now
          users :=
            users.foldl
              (fun m user =>
                assocPut m user.login (buildUserActivity client cutoff user.login))
              [] }

end main

/-- Concrete snapshot used to instantiate the reflexivity theorem. -/
def sampleSnapshot : diff.Snapshot :=
  { capturedAt := ⟨1736935200, 0⟩
    users :=
      [("alice",
        { username := "alice"
          starredRepos := [⟨⟨1700000000, 0⟩, "octocat", "hello-world", "demo", "Go", 42⟩]
          ownedRepos := [⟨⟨1700000001, 0⟩, "alice", "project", "", "Go", 1⟩]
          events := [⟨⟨1736935200, 0⟩, "PushEvent", "alice", "alice/project"⟩] }),
       ("bob",
        { username := "bob"
          starredRepos := []
          ownedRepos := []
          events := [] })] }

/-- Activity of a brand-new user, used to instantiate the all-new-user
counting theorem (the concrete scenario of the spec). -/
def bobActivity : diff.UserActivity :=
  { username := "bob"
    starredRepos := [⟨⟨50, 0⟩, "p", "q", "", "", 0⟩]
    ownedRepos := []
    events := [⟨⟨60, 0⟩, "PushEvent", "bob", "bob/repo"⟩] }

/-- Empty old snapshot for the all-new-user scenario. -/
def newUserOld : diff.Snapshot := ⟨⟨100, 0⟩, []⟩

/-- New snapshot holding exactly the brand-new user bob. -/
def newUserNew : diff.Snapshot := ⟨⟨200, 0⟩, [("bob", bobActivity)]⟩

/-- Old activity for the repo-identity scenario: alice starred and owns
x/y with its original star count and description. -/
def starOldActivity : diff.UserActivity :=
  { username := "alice"
    starredRepos := [⟨⟨10, 0⟩, "x", "y", "old description", "Go", 1⟩]
    ownedRepos := [⟨⟨10, 0⟩, "x", "y", "old description", "Go", 1⟩]
    events := [] }

/-- New activity for the repo-identity scenario: the same full name x/y
but with changed star count, description, language, and creation date. -/
def starNewActivity : diff.UserActivity :=
  { username := "alice"
    starredRepos := [⟨⟨99, 5⟩, "x", "y", "changed", "Rust", 999⟩]
    ownedRepos := [⟨⟨99, 5⟩, "x", "y", "changed", "Rust", 999⟩]
    events := [] }

/-- Old snapshot for the repo-identity scenario. -/
def starOld : diff.Snapshot := ⟨⟨100, 0⟩, [("alice", starOldActivity)]⟩

/-- New snapshot for the repo-identity scenario. -/
def starNew : diff.Snapshot := ⟨⟨200, 0⟩, [("alice", starNewActivity)]⟩

/-- Predicate for strings that do not contain the separator character the
event key is built with.  GitHub event types and usernames never contain
a bar, but the diff engine accepts arbitrary strings. -/
def barFree (s : String) : Prop := ('|' : Char) ∉ s.data

instance (s : String) : Decidable (barFree s) :=
  inferInstanceAs (Decidable (('|' : Char) ∉ s.data))

/-- Old activity for the second-precision scenario: one push event at
nanosecond 111 of second 5. -/
def secOldActivity : diff.UserActivity :=
  ⟨"alice", [], [], [⟨⟨5, 111⟩, "PushEvent", "alice", "alice/r"⟩]⟩

/-- New activity for the second-precision scenario: a push event of the
same type, actor, and repo at nanosecond 999 of the same second. -/
def secNewActivity : diff.UserActivity :=
  ⟨"alice", [], [], [⟨⟨5, 999⟩, "PushEvent", "alice", "alice/r"⟩]⟩

/-- Old snapshot for the second-precision scenario. -/
def secOld : diff.Snapshot := ⟨⟨100, 0⟩, [("alice", secOldActivity)]⟩

/-- New snapshot for the second-precision scenario. -/
def secNew : diff.Snapshot := ⟨⟨200, 0⟩, [("alice", secNewActivity)]⟩

/-- Repository whose creation instant will be used as the cutoff itself,
exercising the inclusive boundary. -/
def cutoffRepo : github.Repository :=
  { createdAt := ⟨500, 0⟩
    updatedAt := ⟨600, 0⟩
    name := "r"
    fullName := "o/r"
    description := ""
    htmlURL := ""
    language := "Go"
    owner := ⟨"o", "", "", "", "", 1⟩
    id := 1
    starCount := 3
    forkCount := 0
    isPrivate := false }

/-- Client for the cutoff-boundary scenario: one starred repo created
exactly at the cutoff instant, an empty owned list, failing events. -/
def cutoffClient : main.GitHubClient :=
  { getFollowedUsers := .ok [⟨"o", "", "", "", "", 1⟩]
    getStarredReposByUsername := fun _ => .ok [cutoffRepo]
    getOwnedReposByUsername := fun _ => .ok []
    getRecentEvents := fun _ => .error "events unavailable" }

/-- Client for the partial-failure scenario: the followed-users fetch
succeeds with one user, every per-user category fetch fails. -/
def failClient : main.GitHubClient :=
  { getFollowedUsers := .ok [⟨"ghost", "", "", "", "", 7⟩]
    getStarredReposByUsername := fun _ => .error "starred down"
    getOwnedReposByUsername := fun _ => .error "owned down"
    getRecentEvents := fun _ => .error "events down" }

/-! Helper lemmas about the association-list embedding of Go maps. -/

theorem assocGet_isSome_of_mem {α : Type} {l : List (String × α)} {k : String}
    {v : α} (h : (k, v) ∈ l) : (assocGet l k).isSome := by
  induction l with
  | nil => cases h
  | cons p rest ih =>
      rcases List.mem_cons.mp h with h | h
      · cases h
        simp [assocGet]
      · by_cases hk : p.1 = k <;> simp [assocGet, hk, ih h]

theorem assocGet_of_mem_nodup {α : Type} {l : List (String × α)}
    (hn : (l.map Prod.fst).Nodup) {k : String} {v : α} (h : (k, v) ∈ l) :
    assocGet l k = some v := by
  induction l with
  | nil => cases h
  | cons p rest ih =>
      obtain ⟨a, b⟩ := p
      rw [List.map_cons, List.nodup_cons] at hn
      rcases List.mem_cons.mp h with h | h
      · cases h
        simp [assocGet]
      · have hk : a ≠ k := by
          intro hk
          exact hn.1 (hk ▸ List.mem_map.mpr ⟨(k, v), h, rfl⟩)
        simp [assocGet, hk, ih hn.2 h]

theorem mem_of_assocGet {α : Type} {l : List (String × α)} {k : String} {v : α}
    (h : assocGet l k = some v) : (k, v) ∈ l := by
  induction l with
  | nil => simp [assocGet] at h
  | cons p rest ih =>
      obtain ⟨a, b⟩ := p
      rw [assocGet] at h
      by_cases hk : a = k
      · subst hk
        rw [if_pos rfl] at h
        cases h
        exact List.mem_cons_self _ _
      · simp only [if_neg hk] at h
        exact List.mem_cons_of_mem _ (ih h)

theorem assocGet_assocPut_self {α : Type} (l : List (String × α)) (k : String)
    (v : α) : assocGet (assocPut l k v) k = some v := by
  induction l with
  | nil => simp [assocPut, assocGet]
  | cons p rest ih =>
      obtain ⟨a, b⟩ := p
      by_cases hk : a = k <;> simp [assocPut, assocGet, hk, ih]

theorem assocGet_assocPut_ne {α : Type} (l : List (String × α)) {k k' : String}
    (h : k' ≠ k) (v : α) : assocGet (assocPut l k' v) k = assocGet l k := by
  induction l with
  | nil => simp [assocPut, assocGet, h]
  | cons p rest ih =>
      obtain ⟨a, b⟩ := p
      by_cases hk : a = k'
      · simp [assocPut, assocGet, hk, h, Ne.symm h]
      · by_cases hk2 : a = k <;>
          simp [assocPut, assocGet, hk, hk2, Ne.symm h, ih]

/-! Helper lemmas about the per-user changes emitted by Compare. -/

namespace diff

theorem compareUser_stars_username {oldUsers : List (String × UserActivity)}
    {k : String} {na : UserActivity} {c : RepoChange}
    (h : c ∈ (compareUser oldUsers k na).1) : c.username = k := by
  unfold compareUser at h
  rcases hg : assocGet oldUsers k with _ | oa <;> rw [hg] at h <;>
    simp only [List.mem_map] at h <;> obtain ⟨r, -, hr⟩ := h <;>
    cases hr <;> rfl

theorem compareUser_repos_username {oldUsers : List (String × UserActivity)}
    {k : String} {na : UserActivity} {c : RepoChange}
    (h : c ∈ (compareUser oldUsers k na).2.1) : c.username = k := by
  unfold compareUser at h
  rcases hg : assocGet oldUsers k with _ | oa <;> rw [hg] at h <;>
    simp only [List.mem_map] at h <;> obtain ⟨r, -, hr⟩ := h <;>
    cases hr <;> rfl

theorem compareUser_events_username {oldUsers : List (String × UserActivity)}
    {k : String} {na : UserActivity} {c : EventChange}
    (h : c ∈ (compareUser oldUsers k na).2.2) : c.username = k := by
  unfold compareUser at h
  rcases hg : assocGet oldUsers k with _ | oa <;> rw [hg] at h <;>
    simp only [List.mem_map] at h <;> obtain ⟨r, -, hr⟩ := h <;>
    cases hr <;> rfl

/-- Restriction of a flatMap over the user map to the changes tagged with
one username: with unique keys, exactly the block contributed by that
user's entry survives the filter. -/
theorem flatMap_filter_username {β : Type} (name : β → String)
    (g : String → UserActivity → List β)
    (hname : ∀ k a, ∀ b ∈ g k a, name b = k) :
    ∀ (l : List (String × UserActivity)) (u : String) (na : UserActivity),
      (l.map Prod.fst).Nodup → (u, na) ∈ l →
      ((l.flatMap fun e => g e.1 e.2).filter fun b => name b == u) = g u na := by
  intro l
  induction l with
  | nil => intro u na _ h; cases h
  | cons p rest ih =>
      intro u na hn hmem
      rw [List.map_cons, List.nodup_cons] at hn
      rw [List.flatMap_cons, List.filter_append]
      rcases List.mem_cons.mp hmem with h | h
      · cases h
        have hrest : ((rest.flatMap fun e => g e.1 e.2).filter
            fun b => name b == u) = [] := by
          rw [List.filter_eq_nil_iff]
          intro b hb
          obtain ⟨e, he, hbe⟩ := List.mem_flatMap.mp hb
          have : name b = e.1 := hname e.1 e.2 b hbe
          simp only [this, beq_iff_eq]
          intro hc
          exact hn.1 (hc ▸ List.mem_map.mpr ⟨e, he, rfl⟩)
        have hhead : ((g u na).filter fun b => name b == u) = g u na := by
          rw [List.filter_eq_self]
          intro b hb
          simp [hname u na b hb]
        rw [hrest, hhead, List.append_nil]
      · have hne : p.1 ≠ u := by
          intro hc
          exact hn.1 (hc ▸ List.mem_map.mpr ⟨(u, na), h, rfl⟩)
        have hhead : ((g p.1 p.2).filter fun b => name b == u) = [] := by
          rw [List.filter_eq_nil_iff]
          intro b hb
          simp [hname p.1 p.2 b hb, hne]
        rw [hhead, List.nil_append, ih u na hn.2 h]

/-- Membership version: with unique keys a change tagged with username `u`
can only come from `u`'s own entry. -/
theorem mem_flatMap_username {β : Type} (name : β → String)
    (g : String → UserActivity → List β)
    (hname : ∀ k a, ∀ b ∈ g k a, name b = k)
    {l : List (String × UserActivity)} {u : String} {na : UserActivity}
    (hn : (l.map Prod.fst).Nodup) (hget : assocGet l u = some na) {c : β}
    (hc : c ∈ l.flatMap fun e => g e.1 e.2) (hu : name c = u) : c ∈ g u na := by
  obtain ⟨e, he, hce⟩ := List.mem_flatMap.mp hc
  have hk : name c = e.1 := hname e.1 e.2 c hce
  have he1 : e.1 = u := by rw [← hk, hu]
  have : (u, e.2) ∈ l := by
    have := he
    rw [← he1]
    exact (Prod.mk.eta (p := e)) ▸ he
  have := assocGet_of_mem_nodup hn this
  rw [hget] at this
  cases this
  exact he1 ▸ hce

/-- Entry of a user also present in the old snapshot under the same
activity contributes no changes. -/
theorem compareUser_self {l : List (String × UserActivity)} {k : String}
    {na : UserActivity} (hget : assocGet l k = some na) :
    compareUser l k na = ([], [], []) := by
  unfold compareUser
  rw [hget]
  refine Prod.ext ?_ (Prod.ext ?_ ?_) <;>
    simp only [List.map_eq_nil_iff, List.filter_eq_nil_iff] <;>
    intro x hx <;> simp [repoSet, eventSet] <;>
    exact ⟨x, hx, rfl⟩

/-- C3: Compare of a well-formed snapshot (usernames unique, as Go map
keys are) against an identical copy of itself reports no new stars, repos,
events, users, or gone users: the result IsEmpty. -/
theorem Compare_self_IsEmpty (s : Snapshot)
    (h : (s.users.map Prod.fst).Nodup) :
    (Compare s s).IsEmpty = true := by
  have habsent : (s.users.filter fun u => (assocGet s.users u.1).isNone) = [] := by
    rw [List.filter_eq_nil_iff]
    intro p hp
    obtain ⟨v, hv⟩ := Option.isSome_iff_exists.mp (assocGet_isSome_of_mem hp)
    simp [hv]
  have hblocks : ∀ p ∈ s.users, compareUser s.users p.1 p.2 = ([], [], []) :=
    fun p hp => compareUser_self (assocGet_of_mem_nodup h hp)
  unfold Compare Result.IsEmpty
  simp only [habsent, List.map_nil, List.isEmpty_nil, Bool.and_true, Bool.true_and]
  rw [List.flatMap_eq_nil_iff.mpr fun p hp => by rw [hblocks p hp],
    List.flatMap_eq_nil_iff.mpr fun p hp => by rw [hblocks p hp],
    List.flatMap_eq_nil_iff.mpr fun p hp => by rw [hblocks p hp]]
  rfl

/-- C4: a username present only in the new snapshot is reported in
newUsers, and its entire activity is emitted unfiltered: the changes
tagged with that username number exactly the lengths of the user's
starred, owned, and event sequences. -/
theorem Compare_new_user_counts (old new : Snapshot) (u : String)
    (na : UserActivity) (hnodup : (new.users.map Prod.fst).Nodup)
    (hold : assocGet old.users u = none)
    (hnew : assocGet new.users u = some na) :
    u ∈ (Compare old new).newUsers ∧
    ((Compare old new).newStars.filter fun c => c.username == u).length =
      na.starredRepos.length ∧
    ((Compare old new).newRepos.filter fun c => c.username == u).length =
      na.ownedRepos.length ∧
    ((Compare old new).newEvents.filter fun c => c.username == u).length =
      na.events.length := by
  have hmem : (u, na) ∈ new.users := mem_of_assocGet hnew
  refine ⟨?_, ?_, ?_, ?_⟩
  · exact List.mem_map.mpr
      ⟨(u, na), List.mem_filter.mpr ⟨hmem, by simp [hold]⟩, rfl⟩
  · rw [show (Compare old new).newStars =
        new.users.flatMap (fun e => (compareUser old.users e.1 e.2).1) from rfl,
      flatMap_filter_username RepoChange.username
        (fun k a => (compareUser old.users k a).1)
        (fun k a b hb => compareUser_stars_username hb) new.users u na
        hnodup hmem]
    simp [compareUser, hold]
  · rw [show (Compare old new).newRepos =
        new.users.flatMap (fun e => (compareUser old.users e.1 e.2).2.1) from rfl,
      flatMap_filter_username RepoChange.username
        (fun k a => (compareUser old.users k a).2.1)
        (fun k a b hb => compareUser_repos_username hb) new.users u na
        hnodup hmem]
    simp [compareUser, hold]
  · rw [show (Compare old new).newEvents =
        new.users.flatMap (fun e => (compareUser old.users e.1 e.2).2.2) from rfl,
      flatMap_filter_username EventChange.username
        (fun k a => (compareUser old.users k a).2.2)
        (fun k a b hb => compareUser_events_username hb) new.users u na
        hnodup hmem]
    simp [compareUser, hold]

/-- Witness for the reflexivity theorem: a concrete two-user snapshot with
a starred repo, an owned repo, and an event, compared against itself. -/
theorem Compare_self_IsEmpty_witness :
    (sampleSnapshot.users.map Prod.fst).Nodup ∧
    (Compare sampleSnapshot sampleSnapshot).IsEmpty = true :=
  ⟨by decide, Compare_self_IsEmpty sampleSnapshot (by decide)⟩

/-- Witness for the all-new-user theorem: bob appears only in the new
snapshot with one starred repo, no owned repos, and one event. -/
theorem Compare_new_user_counts_witness :
    assocGet newUserOld.users "bob" = none ∧
    assocGet newUserNew.users "bob" = some bobActivity ∧
    ("bob" ∈ (Compare newUserOld newUserNew).newUsers ∧
     ((Compare newUserOld newUserNew).newStars.filter
        fun c => c.username == "bob").length = 1 ∧
     ((Compare newUserOld newUserNew).newRepos.filter
        fun c => c.username == "bob").length = 0 ∧
     ((Compare newUserOld newUserNew).newEvents.filter
        fun c => c.username == "bob").length = 1) :=
  ⟨by decide, by decide,
   Compare_new_user_counts newUserOld newUserNew "bob" bobActivity
     (by decide) (by decide) (by decide)⟩

/-- C5: for a user present in both snapshots, repos are identified solely
by the owner/name string: a repo of the new snapshot whose full name also
occurs in the old snapshot's starred (resp. owned) sequence is never
emitted as a RepoChange for that user, whatever its other fields are. -/
theorem Compare_repo_identity (old new : Snapshot) (u : String)
    (oa na : UserActivity) (hnodup : (new.users.map Prod.fst).Nodup)
    (hold : assocGet old.users u = some oa)
    (hnew : assocGet new.users u = some na) :
    (∀ r ∈ na.starredRepos,
      (∃ r2 ∈ oa.starredRepos, r2.FullName = r.FullName) →
      ∀ c ∈ (Compare old new).newStars, c.username = u →
        c.repo.FullName ≠ r.FullName) ∧
    (∀ r ∈ na.ownedRepos,
      (∃ r2 ∈ oa.ownedRepos, r2.FullName = r.FullName) →
      ∀ c ∈ (Compare old new).newRepos, c.username = u →
        c.repo.FullName ≠ r.FullName) := by
  constructor
  · rintro r - ⟨r2, hr2, hfn⟩ c hc hcu heq
    have hc1 : c ∈ (compareUser old.users u na).1 :=
      mem_flatMap_username RepoChange.username
        (fun k a => (compareUser old.users k a).1)
        (fun k a b hb => compareUser_stars_username hb) hnodup hnew hc hcu
    rw [compareUser, hold] at hc1
    obtain ⟨r3, hr3, hr3c⟩ := List.mem_map.mp hc1
    have hfilter := (List.mem_filter.mp hr3).2
    rw [decide_eq_true_iff] at hfilter
    apply hfilter
    have : c.repo = r3 := by rw [← hr3c]
    rw [← this, heq, ← hfn]
    exact List.mem_map_of_mem _ hr2
  · rintro r - ⟨r2, hr2, hfn⟩ c hc hcu heq
    have hc1 : c ∈ (compareUser old.users u na).2.1 :=
      mem_flatMap_username RepoChange.username
        (fun k a => (compareUser old.users k a).2.1)
        (fun k a b hb => compareUser_repos_username hb) hnodup hnew hc hcu
    rw [compareUser, hold] at hc1
    obtain ⟨r3, hr3, hr3c⟩ := List.mem_map.mp hc1
    have hfilter := (List.mem_filter.mp hr3).2
    rw [decide_eq_true_iff] at hfilter
    apply hfilter
    have : c.repo = r3 := by rw [← hr3c]
    rw [← this, heq, ← hfn]
    exact List.mem_map_of_mem _ hr2

/-- Witness for the repo-identity theorem: x/y changed its stars,
description, language, and creation date between the snapshots, and is
still not reported as new, neither as a star nor as an owned repo. -/
theorem Compare_repo_identity_witness :
    assocGet starOld.users "alice" = some starOldActivity ∧
    assocGet starNew.users "alice" = some starNewActivity ∧
    (∀ c ∈ (Compare starOld starNew).newStars, c.username = "alice" →
      c.repo.FullName ≠ "x/y") :=
  ⟨by decide, by decide, fun c hc hcu =>
    (Compare_repo_identity starOld starNew "alice" starOldActivity
        starNewActivity (by decide) (by decide) (by decide)).1
      ⟨⟨99, 5⟩, "x", "y", "changed", "Rust", 999⟩ (by decide)
      ⟨⟨⟨10, 0⟩, "x", "y", "old description", "Go", 1⟩, by decide, rfl⟩
      c hc hcu⟩

end diff

/-! Decomposition lemmas for the bar-separated event key. -/

theorem append_sep_inj {a a' x x' : List Char} (ha : ('|' : Char) ∉ a)
    (ha' : ('|' : Char) ∉ a') (h : a ++ '|' :: x = a' ++ '|' :: x') :
    a = a' ∧ x = x' := by
  induction a generalizing a' with
  | nil =>
      cases a' with
      | nil => simpa using h
      | cons c t =>
          simp only [List.nil_append, List.cons_append, List.cons.injEq] at h
          exact absurd (h.1 ▸ List.mem_cons_self c t) ha'
  | cons c t ih =>
      cases a' with
      | nil =>
          simp only [List.cons_append, List.nil_append, List.cons.injEq] at h
          exact absurd (h.1 ▸ List.mem_cons_self c t) ha
      | cons c' t' =>
          simp only [List.cons_append, List.cons.injEq] at h
          have hmt : ('|' : Char) ∉ t := fun hc => ha (List.mem_cons_of_mem _ hc)
          have hmt' : ('|' : Char) ∉ t' :=
            fun hc => ha' (List.mem_cons_of_mem _ hc)
          obtain ⟨h1, h2⟩ := ih hmt hmt' h.2
          exact ⟨by rw [h.1, h1], h2⟩

theorem string_sep_inj {a b c a' b' c' : String} (ha : barFree a)
    (hb : barFree b) (ha' : barFree a') (hb' : barFree b')
    (h : a ++ "|" ++ b ++ "|" ++ c = a' ++ "|" ++ b' ++ "|" ++ c') :
    a = a' ∧ b = b' ∧ c = c' := by
  have hd := congrArg String.data h
  simp only [String.data_append, List.append_assoc, List.singleton_append,
    show ("|" : String).data = ['|'] from rfl] at hd
  obtain ⟨h1, h23⟩ := append_sep_inj ha ha' hd
  obtain ⟨h2, h3⟩ := append_sep_inj hb hb' h23
  exact ⟨String.ext h1, String.ext h2, String.ext h3⟩

namespace diff

/-- Equality of event keys is equality of the type, actor, and repo fields
together with the whole-second timestamp, provided type and actor contain
no bar character (the separator the key is built with). -/
theorem eventKey_eq_iff {e f : Event} (he1 : barFree e.type)
    (he2 : barFree e.actor) (hf1 : barFree f.type) (hf2 : barFree f.actor) :
    eventKey e = eventKey f ↔
    (e.type = f.type ∧ e.actor = f.actor ∧ e.repo = f.repo ∧
      e.createdAt.sec = f.createdAt.sec) := by
  unfold eventKey
  constructor
  · intro h
    obtain ⟨ht, ha, hr⟩ :=
      string_sep_inj he1 he2 hf1 hf2 (congrArg Prod.fst h)
    exact ⟨ht, ha, hr, congrArg Prod.snd h⟩
  · rintro ⟨h1, h2, h3, h4⟩
    rw [h1, h2, h3, h4]

/-- C2 counterexample: the event key concatenates fields with a bar
separator, so an old event with type a|b and actor c collides with a new
event with type a and actor b|c at the same second.  The new event is
omitted from newEvents although no old event has its type, actor, repo,
and second: identification is by key string, not by the 4-tuple. -/
theorem Compare_event_identity_counterexample :
    (Compare ⟨⟨0, 0⟩, [("u", ⟨"u", [], [], [⟨⟨0, 0⟩, "a|b", "c", "r"⟩]⟩)]⟩
        ⟨⟨1, 0⟩, [("u", ⟨"u", [], [], [⟨⟨0, 0⟩, "a", "b|c", "r"⟩]⟩)]⟩).newEvents
      = [] ∧
    ¬ ∃ e ∈ [(⟨⟨0, 0⟩, "a|b", "c", "r"⟩ : Event)],
        e.type = "a" ∧ e.actor = "b|c" ∧ e.repo = "r" ∧
          e.createdAt.sec = 0 := by
  decide

/-- C2 (amended): for a user present in both snapshots, an event of the
new snapshot whose type and actor are bar-free (as all GitHub event types
and usernames are) is omitted from newEvents exactly when the old snapshot
holds an event, itself with bar-free type and actor, of the same type,
actor, and repo whose createdAt is equal at second precision; in
particular two such events of the same type, actor, and repo within the
same second are identified. -/
theorem Compare_event_identity (old new : Snapshot) (u : String)
    (oa na : UserActivity) (ev : Event)
    (hnodup : (new.users.map Prod.fst).Nodup)
    (hold : assocGet old.users u = some oa)
    (hnew : assocGet new.users u = some na)
    (hev : ev ∈ na.events)
    (hbf1 : barFree ev.type) (hbf2 : barFree ev.actor)
    (hbfold : ∀ e ∈ oa.events, barFree e.type ∧ barFree e.actor) :
    (¬ ∃ c ∈ (Compare old new).newEvents, c.username = u ∧ c.event = ev) ↔
    (∃ e ∈ oa.events, e.type = ev.type ∧ e.actor = ev.actor ∧
      e.repo = ev.repo ∧ e.createdAt.sec = ev.createdAt.sec) := by
  have hstep :
      (∃ c ∈ (Compare old new).newEvents, c.username = u ∧ c.event = ev) ↔
      eventKey ev ∉ eventSet oa.events := by
    constructor
    · rintro ⟨c, hc, hcu, hce⟩
      have hc2 : c ∈ (compareUser old.users u na).2.2 :=
        mem_flatMap_username EventChange.username
          (fun k a => (compareUser old.users k a).2.2)
          (fun k a b hb => compareUser_events_username hb) hnodup hnew hc hcu
      rw [compareUser, hold] at hc2
      obtain ⟨e2, he2, he2c⟩ := List.mem_map.mp hc2
      have hfe := (List.mem_filter.mp he2).2
      rw [decide_eq_true_iff] at hfe
      have he2ev : e2 = ev := by rw [← hce, ← he2c]
      exact he2ev ▸ hfe
    · intro hnot
      refine ⟨⟨ev, u⟩, ?_, rfl, rfl⟩
      show _ ∈ new.users.flatMap fun e => (compareUser old.users e.1 e.2).2.2
      refine List.mem_flatMap.mpr ⟨(u, na), mem_of_assocGet hnew, ?_⟩
      rw [compareUser, hold]
      exact List.mem_map_of_mem _
        (List.mem_filter.mpr ⟨hev, by simpa using hnot⟩)
  constructor
  · intro h
    have hk : eventKey ev ∈ eventSet oa.events :=
      not_not.mp fun hn => h (hstep.mpr hn)
    obtain ⟨e, he, hke⟩ := List.mem_map.mp hk
    exact ⟨e, he,
      (eventKey_eq_iff (hbfold e he).1 (hbfold e he).2 hbf1 hbf2).mp hke⟩
  · rintro ⟨e, he, hm⟩ hex
    exact hstep.mp hex (List.mem_map.mpr ⟨e, he,
      (eventKey_eq_iff (hbfold e he).1 (hbfold e he).2 hbf1 hbf2).mpr hm⟩)

/-- Witness for the amended event-identity theorem: the old snapshot holds
a push event at nanosecond 111 of second 5, the new snapshot the same
type, actor, and repo at nanosecond 999 of the same second, and the new
event is omitted from newEvents. -/
theorem Compare_event_identity_witness :
    ((⟨⟨5, 999⟩, "PushEvent", "alice", "alice/r"⟩ : Event) ∈
      secNewActivity.events) ∧
    ((¬ ∃ c ∈ (Compare secOld secNew).newEvents, c.username = "alice" ∧
        c.event = (⟨⟨5, 999⟩, "PushEvent", "alice", "alice/r"⟩ : Event)) ↔
      (∃ e ∈ secOldActivity.events, e.type = "PushEvent" ∧
        e.actor = "alice" ∧ e.repo = "alice/r" ∧ e.createdAt.sec = 5)) :=
  ⟨by decide,
   Compare_event_identity secOld secNew "alice" secOldActivity
     secNewActivity ⟨⟨5, 999⟩, "PushEvent", "alice", "alice/r"⟩
     (by decide) (by decide) (by decide) (by decide) (by decide) (by decide)
     (by decide)⟩

end diff

namespace github

/-- Closed form of the pagination loop on the success path: starting at
any page at least 1, the loop appends exactly the rest of the resource to
the accumulator, and issues one request per remaining full page plus one
final request. -/
theorem getPaginatedLoop_spec {α : Type} (items acc : List α)
    (page reqs : Nat) (h : 1 ≤ page) :
    getPaginatedLoop items acc page reqs =
      (acc ++ items.drop ((page - 1) * 100),
       reqs + (items.length - (page - 1) * 100) / 100 + 1) := by
  revert h
  induction acc, page, reqs using getPaginatedLoop.induct items with
  | case1 acc page reqs hempty =>
      intro h
      rw [getPaginatedLoop, if_pos hempty]
      simp only [pageSlice, List.length_take, List.length_drop] at hempty
      rw [List.drop_eq_nil_of_le (by omega), List.append_nil]
      have hz : (items.length - (page - 1) * 100) / 100 = 0 := by omega
      rw [hz]
  | case2 acc page reqs hempty hshort =>
      intro h
      rw [getPaginatedLoop, if_neg hempty, if_pos hshort]
      simp only [pageSlice, List.length_take, List.length_drop]
        at hempty hshort
      refine Prod.ext ?_ ?_
      · show acc ++ pageSlice items 100 page = _
        rw [pageSlice, List.take_of_length_le (by simp; omega)]
      · show reqs + 1 = _
        omega
  | case3 acc page reqs hempty hshort ih =>
      intro h
      rw [getPaginatedLoop, if_neg hempty, if_neg hshort]
      have hlen : 100 ≤ items.length - (page - 1) * 100 := by
        simp only [pageSlice, List.length_take, List.length_drop]
          at hempty hshort
        omega
      rw [ih (by omega)]
      refine Prod.ext ?_ ?_
      · show acc ++ pageSlice items 100 page ++
            items.drop ((page + 1 - 1) * 100) = _
        rw [List.append_assoc, pageSlice,
          show (page + 1 - 1) * 100 = (page - 1) * 100 + 100 by omega,
          List.drop_take_append_drop]
      · show reqs + 1 + (items.length - (page + 1 - 1) * 100) / 100 + 1 = _
        have : (page + 1 - 1) * 100 = (page - 1) * 100 + 100 := by omega
        rw [this]
        omega

/-- C1: getPaginated collects the whole resource in its original order and
issues resource-length / 100 + 1 page requests: the full-page case issues
one extra confirming request, so a resource of exactly 100 items yields
the 100 items with exactly 2 requests, and a resource of 202 items (pages
of 100, 100, and 2) yields all 202 items in order with 3 requests. -/
theorem getPaginated_spec {α : Type} :
    (∀ items : List α,
      getPaginated items [] = (items, items.length / 100 + 1)) ∧
    (∀ items : List α, items.length = 100 →
      getPaginated items [] = (items, 2)) ∧
    (∀ items : List α, items.length = 202 →
      getPaginated items [] = (items, 3)) := by
  have hgen : ∀ items : List α,
      getPaginated items [] = (items, items.length / 100 + 1) := by
    intro items
    unfold getPaginated
    rw [getPaginatedLoop_spec items [] 1 0 le_rfl]
    simp
  exact ⟨hgen, fun items h => by rw [hgen, h], fun items h => by rw [hgen, h]⟩

/-- Witness for the pagination theorem at the two fixture sizes of the
specification: 100 items cost 2 requests, 202 items arrive in order. -/
theorem getPaginated_spec_witness :
    getPaginated (List.range 100) ([] : List Nat) = (List.range 100, 2) ∧
    getPaginated (List.range 202) ([] : List Nat) = (List.range 202, 3) :=
  ⟨getPaginated_spec.2.1 (List.range 100) (by simp),
   getPaginated_spec.2.2 (List.range 202) (by simp)⟩

/-- Closed form of the pagination loop when page `k` fails: every page
before `k` is full, so the loop reaches page `k`, receives the error, and
propagates it at once. -/
theorem getPaginatedErrLoop_spec {α ε : Type} (items : List α) (k : Nat)
    (e : ε) :
    ∀ (n : Nat) (acc : List α) (page reqs : Nat), page + n = k → 1 ≤ page →
      (k - 1) * 100 ≤ items.length →
      getPaginatedErrLoop items k e acc page reqs = (.error e, reqs + n + 1) := by
  intro n
  induction n with
  | zero =>
      intro acc page reqs hpk h1 hk
      rw [getPaginatedErrLoop, if_pos (by omega : page = k)]
  | succ m ih =>
      intro acc page reqs hpk h1 hk
      have hfull : (pageSlice items 100 page).length = 100 := by
        simp only [pageSlice, List.length_take, List.length_drop]
        omega
      rw [getPaginatedErrLoop, if_neg (by omega : ¬page = k),
        if_neg (by omega : ¬(pageSlice items 100 page).length = 0),
        if_neg (by omega : ¬(pageSlice items 100 page).length < 100),
        ih (acc ++ pageSlice items 100 page) (page + 1) (reqs + 1)
          (by omega) (by omega) hk]
      refine Prod.ext rfl ?_
      show reqs + 1 + m + 1 = _
      omega

/-- C9: when the fetch of page `k` of a resource fails, getPaginated
returns that error on its kth request, and the caller's slice is exactly
what it was before the call: no partial pages are surfaced. -/
theorem getPaginatedErr_aborts {α ε : Type} (items : List α) (k : Nat)
    (e : ε) (init : List α) (h1 : 1 ≤ k)
    (h2 : k ≤ items.length / 100 + 1) :
    (getPaginatedErr items k e init).1 = .error e ∧
    callerSliceAfter init (getPaginatedErr items k e init).1 = init ∧
    (getPaginatedErr items k e init).2 = k := by
  have hk : (k - 1) * 100 ≤ items.length := by omega
  unfold getPaginatedErr
  rw [getPaginatedErrLoop_spec items k e (k - 1) init 1 0 (by omega) le_rfl hk]
  exact ⟨rfl, rfl, by omega⟩

/-- Witness for the abort theorem: a 150-item resource whose second page
fails; the collected first page of 100 items is not surfaced and the
caller's slice is untouched. -/
theorem getPaginatedErr_aborts_witness :
    (1 ≤ 2 ∧ 2 ≤ (List.range 150).length / 100 + 1) ∧
    ((getPaginatedErr (List.range 150) 2 "boom" [7]).1 = .error "boom" ∧
     callerSliceAfter [7] (getPaginatedErr (List.range 150) 2 "boom" [7]).1
       = [7] ∧
     (getPaginatedErr (List.range 150) 2 "boom" [7]).2 = 2) :=
  ⟨⟨by decide, by simp⟩,
   getPaginatedErr_aborts (List.range 150) 2 "boom" [7] (by decide) (by simp)⟩

/-- C8: a first fetch of a path that succeeds (2xx) with a body carrying
an ETag stores the body in the cache; a second fetch of the same path that
receives 304 Not Modified succeeds by decoding the cached body, so its
decoded result equals the first fetch's decoded result. -/
theorem get_notModified_serves_cached {α : Type} (cache0 : Cache)
    (path : String) (resp1 resp2 : Response)
    (decode : String → Except String α) (now1 now2 : GoTime) (v : α)
    (hlo : 200 ≤ resp1.statusCode) (hhi : resp1.statusCode < 300)
    (hetag : resp1.etag ≠ "") (hdec : decode resp1.body = .ok v)
    (h304 : resp2.statusCode = 304) :
    (get cache0 path resp1 decode now1).1 = .ok v ∧
    (get (get cache0 path resp1 decode now1).2 path resp2 decode now2).1 =
      .ok v := by
  have hne304 : resp1.statusCode ≠ 304 := by omega
  have hfirst : get cache0 path resp1 decode now1 =
      (.ok v, assocPut cache0 path ⟨now1, resp1.etag, resp1.body⟩) := by
    unfold get
    rw [if_neg (by simp [hne304]), if_neg (by simp; omega), if_pos hetag, hdec]
  have hcached :
      assocGet (assocPut cache0 path ⟨now1, resp1.etag, resp1.body⟩) path =
        some ⟨now1, resp1.etag, resp1.body⟩ :=
    assocGet_assocPut_self cache0 path _
  refine ⟨by rw [hfirst], ?_⟩
  rw [hfirst]
  unfold get
  rw [if_pos (by rw [h304, hcached]; simp), hcached]
  simp [hdec]

/-- C10: a 304 Not Modified response for a path with no cache entry is not
treated as a success: the fetch fails with an API error carrying status
304 and the response body, no decoded value is produced, and the cache is
untouched. -/
theorem get_notModified_noCache {α : Type} (cache : Cache) (path : String)
    (resp : Response) (decode : String → Except String α) (now : GoTime)
    (hmiss : assocGet cache path = none) (h304 : resp.statusCode = 304) :
    (get cache path resp decode now).1 =
      .error (.apiError 304 resp.body) ∧
    (get cache path resp decode now).2 = cache := by
  unfold get
  rw [if_neg (by rw [hmiss]; simp),
    if_pos (by simp only [Bool.or_eq_true, decide_eq_true_eq]; omega), h304]
  exact ⟨rfl, rfl⟩

/-- Witness for the caching theorem: a 200 response with an ETag followed
by a 304 for the same path; both fetches decode to the same value. -/
theorem get_notModified_serves_cached_witness :
    (get ([] : Cache) "/user/following" ⟨200, "[1,2]", "W/x"⟩
        (fun s => .ok s) ⟨1, 0⟩).1 = .ok "[1,2]" ∧
    (get (get ([] : Cache) "/user/following" ⟨200, "[1,2]", "W/x"⟩
          (fun s => .ok s) ⟨1, 0⟩).2 "/user/following" ⟨304, "", ""⟩
        (fun s => .ok s) ⟨2, 0⟩).1 = .ok "[1,2]" :=
  get_notModified_serves_cached [] "/user/following" ⟨200, "[1,2]", "W/x"⟩
    ⟨304, "", ""⟩ (fun s => .ok s) ⟨1, 0⟩ ⟨2, 0⟩ "[1,2]" (by decide)
    (by decide) (by decide) rfl rfl

/-- Witness for the cold-cache 304 theorem: a 304 on an empty cache fails
with an API error carrying status 304. -/
theorem get_notModified_noCache_witness :
    (get ([] : Cache) "/user/following" ⟨304, "", ""⟩
        (fun s => Except.ok s) ⟨1, 0⟩).1 =
      .error (.apiError 304 "") ∧
    (get ([] : Cache) "/user/following" ⟨304, "", ""⟩
        (fun s => Except.ok s) ⟨1, 0⟩).2 = [] :=
  get_notModified_noCache [] "/user/following" ⟨304, "", ""⟩
    (fun s => Except.ok s) ⟨1, 0⟩ rfl rfl

end github

namespace main

/-- C6: the snapshot builder keeps an item of a successful category fetch
exactly when its creation timestamp is not before the cutoff; the
boundary is inclusive since an instant is never before itself. -/
theorem buildUserActivity_cutoff_filter (client : GitHubClient)
    (cutoff : GoTime) (login : String) :
    (∀ starred, client.getStarredReposByUsername login = .ok starred →
      ∀ r ∈ starred,
        (convertRepo r ∈ (buildUserActivity client cutoff login).starredRepos ↔
          r.createdAt.before cutoff = false)) ∧
    (∀ owned, client.getOwnedReposByUsername login = .ok owned →
      ∀ r ∈ owned,
        (convertRepo r ∈ (buildUserActivity client cutoff login).ownedRepos ↔
          r.createdAt.before cutoff = false)) ∧
    (∀ events, client.getRecentEvents login = .ok events →
      ∀ e ∈ events,
        (convertEvent e ∈ (buildUserActivity client cutoff login).events ↔
          e.createdAt.before cutoff = false)) ∧
    (∀ t : GoTime, t.before t = false) := by
  refine ⟨?_, ?_, ?_, ?_⟩
  · intro starred hok r hr
    simp only [buildUserActivity, hok]
    constructor
    · intro hmem
      obtain ⟨r2, hr2, he⟩ := List.mem_map.mp hmem
      have hcreated : r2.createdAt = r.createdAt :=
        congrArg diff.Repo.createdAt he
      have := (List.mem_filter.mp hr2).2
      rw [Bool.not_eq_eq_eq_not, Bool.not_true] at this
      rw [← hcreated]
      exact this
    · intro hb
      exact List.mem_map_of_mem _
        (List.mem_filter.mpr ⟨hr, by simp [hb]⟩)
  · intro owned hok r hr
    simp only [buildUserActivity, hok]
    constructor
    · intro hmem
      obtain ⟨r2, hr2, he⟩ := List.mem_map.mp hmem
      have hcreated : r2.createdAt = r.createdAt :=
        congrArg diff.Repo.createdAt he
      have := (List.mem_filter.mp hr2).2
      rw [Bool.not_eq_eq_eq_not, Bool.not_true] at this
      rw [← hcreated]
      exact this
    · intro hb
      exact List.mem_map_of_mem _
        (List.mem_filter.mpr ⟨hr, by simp [hb]⟩)
  · intro events hok e he
    simp only [buildUserActivity, hok]
    constructor
    · intro hmem
      obtain ⟨e2, he2, hee⟩ := List.mem_map.mp hmem
      have hcreated : e2.createdAt = e.createdAt :=
        congrArg diff.Event.createdAt hee
      have := (List.mem_filter.mp he2).2
      rw [Bool.not_eq_eq_eq_not, Bool.not_true] at this
      rw [← hcreated]
      exact this
    · intro hb
      exact List.mem_map_of_mem _
        (List.mem_filter.mpr ⟨he, by simp [hb]⟩)
  · intro t
    simp [GoTime.before]

/-- Witness for the cutoff theorem: a repo created exactly at the cutoff
instant is kept in the snapshot (inclusive boundary). -/
theorem buildUserActivity_cutoff_filter_witness :
    cutoffClient.getStarredReposByUsername "o" = .ok [cutoffRepo] ∧
    (convertRepo cutoffRepo ∈
        (buildUserActivity cutoffClient ⟨500, 0⟩ "o").starredRepos ↔
      cutoffRepo.createdAt.before ⟨500, 0⟩ = false) :=
  ⟨rfl,
   (buildUserActivity_cutoff_filter cutoffClient ⟨500, 0⟩ "o").1
     [cutoffRepo] rfl cutoffRepo (by decide)⟩

/-- Folding the per-user construction over the followed users leaves every
followed user bound in the map to their built activity; rebinding the same
login writes the same value, so no uniqueness assumption is needed. -/
theorem assocGet_foldl_put (f : String → diff.UserActivity) :
    ∀ (users : List github.User) (init : List (String × diff.UserActivity))
      (k : String),
      (assocGet init k = some (f k) ∨ k ∈ users.map github.User.login) →
      assocGet
        (users.foldl (fun m user => assocPut m user.login (f user.login))
          init) k = some (f k) := by
  intro users
  induction users with
  | nil =>
      intro init k h
      rcases h with h | h
      · exact h
      · cases h
  | cons v rest ih =>
      intro init k h
      rw [List.foldl_cons]
      apply ih
      rcases h with h | h
      · by_cases hk : v.login = k
        · subst hk
          exact Or.inl (assocGet_assocPut_self init v.login (f v.login))
        · exact Or.inl ((assocGet_assocPut_ne init hk (f v.login)).trans h)
      · rw [List.map_cons] at h
        rcases List.mem_cons.mp h with h | h
        · subst h
          exact Or.inl (assocGet_assocPut_self init _ _)
        · exact Or.inr h

/-- C7: once the followed-users fetch succeeds, fetchActivity always
succeeds; every followed user is bound in the snapshot's user map keyed by
username, a failing category is left empty for that user while the other
categories are untouched, and the record is present even when all three
categories failed. -/
theorem fetchActivity_partial_failure (client : GitHubClient)
    (now cutoff : GoTime) (users : List github.User)
    (hf : client.getFollowedUsers = .ok users) :
    ∃ snap, fetchActivity client now cutoff = .ok snap ∧
      snap.capturedAt = now ∧
      (∀ u ∈ users, assocGet snap.users u.login =
        some (buildUserActivity client cutoff u.login)) ∧
      (∀ login err, client.getStarredReposByUsername login = .error err →
        (buildUserActivity client cutoff login).starredRepos = []) ∧
      (∀ login err, client.getOwnedReposByUsername login = .error err →
        (buildUserActivity client cutoff login).ownedRepos = []) ∧
      (∀ login err, client.getRecentEvents login = .error err →
        (buildUserActivity client cutoff login).events = []) ∧
      (∀ login, (buildUserActivity client cutoff login).username = login) := by
  have hsnap : fetchActivity client now cutoff =
      .ok ⟨now,
        users.foldl
          (fun m user =>
            assocPut m user.login (buildUserActivity client cutoff user.login))
          []⟩ := by
    unfold fetchActivity
    rw [hf]
  refine ⟨_, hsnap, rfl, ?_, ?_, ?_, ?_, fun login => rfl⟩
  · intro u hu
    exact assocGet_foldl_put (buildUserActivity client cutoff) users [] u.login
      (Or.inr (List.mem_map_of_mem _ hu))
  · intro login err herr
    simp [buildUserActivity, herr]
  · intro login err herr
    simp [buildUserActivity, herr]
  · intro login err herr
    simp [buildUserActivity, herr]

/-- Witness for the partial-failure theorem: all three category fetches
fail, yet fetchActivity succeeds and the user appears in the map. -/
theorem fetchActivity_partial_failure_witness :
    failClient.getFollowedUsers = .ok [⟨"ghost", "", "", "", "", 7⟩] ∧
    (∃ snap, fetchActivity failClient ⟨1000, 0⟩ ⟨0, 0⟩ = .ok snap ∧
      snap.capturedAt = ⟨1000, 0⟩ ∧
      (∀ u ∈ [(⟨"ghost", "", "", "", "", 7⟩ : github.User)],
        assocGet snap.users u.login =
          some (buildUserActivity failClient ⟨0, 0⟩ u.login)) ∧
      (∀ login err, failClient.getStarredReposByUsername login = .error err →
        (buildUserActivity failClient ⟨0, 0⟩ login).starredRepos = []) ∧
      (∀ login err, failClient.getOwnedReposByUsername login = .error err →
        (buildUserActivity failClient ⟨0, 0⟩ login).ownedRepos = []) ∧
      (∀ login err, failClient.getRecentEvents login = .error err →
        (buildUserActivity failClient ⟨0, 0⟩ login).events = []) ∧
      (∀ login, (buildUserActivity failClient ⟨0, 0⟩ login).username = login)) :=
  ⟨rfl,
   fetchActivity_partial_failure failClient ⟨1000, 0⟩ ⟨0, 0⟩
     [⟨"ghost", "", "", "", "", 7⟩] rfl⟩

end main

end GitStreams
